import Mathlib

/-!
Verification of the asynchronous fetch/download orchestration core of
`chan_scraper.py` (4chan Media Scraper).

The Python source is shallowly embedded: network responses, the file
system and write success are explicit inputs; machine-level effects
(HTTP, tkinter callbacks) are modelled by the data they deliver.
Each section names the Python function it embeds.
-/

set_option autoImplicit false

namespace ChanScraper

/-- Raw byte payloads are modelled as lists of byte values. -/
abbrev Bytes := List Nat

/-- Module-level constant `APP_VERSION = "v1.2.0"` from the source. -/
def APP_VERSION : String := "v1.2.0"

/-- Module-level constant `IMG_BASE = "https://i.4cdn.org"` from the source. -/
def IMG_BASE : String := "https://i.4cdn.org"

/-- One entry of the `posts` array of a thread-listing JSON document.
Each field is optional, mirroring dictionary key presence in the source:
`'tim' in post`, `'ext' in post`, `post.get('filename', '')`,
`post.get('fsize', 0)`. -/
structure Post where
  tim : Option Nat
  ext : Option String
  filename : Option String
  fsize : Option Nat
  deriving DecidableEq, Repr

/-- Embeds the `MediaItem` dataclass of the source. -/
structure MediaItem where
  tim : Nat
  ext : String
  filename : String
  board : String
  fsize : Nat
  deriving DecidableEq, Repr

/-- `MediaItem.full_url`: `f"{IMG_BASE}/{self.board}/{self.tim}{self.ext}"`. -/
def MediaItem.full_url (m : MediaItem) : String :=
  IMG_BASE ++ "/" ++ m.board ++ "/" ++ toString m.tim ++ m.ext

/-- `MediaItem.thumb_url`: `f"{IMG_BASE}/{self.board}/{self.tim}s.jpg"`. -/
def MediaItem.thumb_url (m : MediaItem) : String :=
  IMG_BASE ++ "/" ++ m.board ++ "/" ++ toString m.tim ++ "s.jpg"

/-- `MediaItem.local_filename`: `f"{self.tim}{self.ext}"`. -/
def MediaItem.local_filename (m : MediaItem) : String :=
  toString m.tim ++ m.ext

/-- Construction of a `MediaItem` from one post, as done inside the loop of
`_async_load_thread`: requires both the `tim` and the `ext` key. -/
def mkItem (board : String) (p : Post) : Option MediaItem :=
  match p.tim, p.ext with
  | some t, some e =>
    some { tim := t, ext := e, filename := p.filename.getD "",
           board := board, fsize := p.fsize.getD 0 }
  | _, _ => none

/-- The descriptor-building loop of `_async_load_thread`: iterate over the
posts in listing order, skip posts lacking `tim` or `ext`, and skip posts
whose `tim` is already in `seen_tim`; otherwise append the item and record
its `tim`.  `seen` models the Python set `seen_tim`. -/
def buildItems (board : String) : List Post → List Nat → List MediaItem
  | [], _ => []
  | p :: rest, seen =>
    match mkItem board p with
    | some item =>
      if item.tim ∈ seen then buildItems board rest seen
      else item :: buildItems board rest (item.tim :: seen)
    | none => buildItems board rest seen

/-- First-occurrence deduplication on an already-filtered item list, used to
relate `buildItems` to `List.filterMap (mkItem board)`. -/
def firstWins : List MediaItem → List Nat → List MediaItem
  | [], _ => []
  | x :: xs, seen =>
    if x.tim ∈ seen then firstWins xs seen
    else x :: firstWins xs (x.tim :: seen)

theorem buildItems_eq_firstWins (board : String) :
    ∀ (posts : List Post) (seen : List Nat),
      buildItems board posts seen = firstWins (posts.filterMap (mkItem board)) seen := by
  intro posts
  induction posts with
  | nil => intro seen; rfl
  | cons p rest ih =>
    intro seen
    cases h : mkItem board p with
    | none => simp [buildItems, h, List.filterMap_cons, ih]
    | some item =>
      simp only [buildItems, h, List.filterMap_cons, firstWins]
      by_cases hmem : item.tim ∈ seen
      · simp [hmem, ih]
      · simp [hmem, ih]

theorem firstWins_sublist : ∀ (l : List MediaItem) (seen : List Nat),
    (firstWins l seen).Sublist l := by
  intro l
  induction l with
  | nil => intro seen; simp [firstWins]
  | cons x xs ih =>
    intro seen
    by_cases hmem : x.tim ∈ seen
    · simpa [firstWins, hmem] using (ih seen).cons x
    · simpa [firstWins, hmem] using (ih (x.tim :: seen)).cons₂ x

theorem firstWins_mem_not_seen : ∀ (l : List MediaItem) (seen : List Nat)
    (x : MediaItem), x ∈ firstWins l seen → x.tim ∉ seen := by
  intro l
  induction l with
  | nil => intro seen x hx; simp [firstWins] at hx
  | cons y ys ih =>
    intro seen x hx
    by_cases hmem : y.tim ∈ seen
    · exact ih seen x (by simpa [firstWins, hmem] using hx)
    · simp only [firstWins, hmem, if_neg, ite_false, List.mem_cons] at hx
      rcases hx with rfl | hx
      · exact hmem
      · intro hs
        exact ih (y.tim :: seen) x hx (List.mem_cons_of_mem _ hs)

theorem firstWins_tims_nodup : ∀ (l : List MediaItem) (seen : List Nat),
    ((firstWins l seen).map MediaItem.tim).Nodup := by
  intro l
  induction l with
  | nil => intro seen; simp [firstWins]
  | cons y ys ih =>
    intro seen
    by_cases hmem : y.tim ∈ seen
    · simpa [firstWins, hmem] using ih seen
    · simp only [firstWins, hmem, ite_false, List.map_cons, List.nodup_cons]
      refine ⟨?_, ih (y.tim :: seen)⟩
      intro hy
      rcases List.mem_map.1 hy with ⟨z, hz, hzy⟩
      have := firstWins_mem_not_seen ys (y.tim :: seen) z hz
      exact this (by simp [hzy])

theorem firstWins_find? : ∀ (l : List MediaItem) (seen : List Nat) (t : Nat),
    t ∉ seen →
    (firstWins l seen).find? (fun a => a.tim == t) = l.find? (fun a => a.tim == t) := by
  intro l
  induction l with
  | nil => intro seen t _; rfl
  | cons y ys ih =>
    intro seen t ht
    by_cases hmem : y.tim ∈ seen
    · have hne : (y.tim == t) = false := by
        simp only [beq_eq_false_iff_ne, ne_eq]
        intro h; exact ht (h ▸ hmem)
      simp only [firstWins, hmem, ite_true, List.find?_cons, hne]
      exact ih seen t ht
    · by_cases hyt : y.tim = t
      · subst hyt
        simp [firstWins, hmem, List.find?_cons]
      · have hne : (y.tim == t) = false := by simp [hyt]
        simp only [firstWins, hmem, ite_false, List.find?_cons, hne]
        refine ih (y.tim :: seen) t ?_
        simp only [List.mem_cons, not_or]
        exact ⟨fun h => hyt h.symm, ht⟩

theorem buildItems_filter_irrelevant (board : String) :
    ∀ (posts : List Post) (seen : List Nat),
      buildItems board posts seen =
        buildItems board (posts.filter fun p => p.tim.isSome && p.ext.isSome) seen := by
  intro posts
  induction posts with
  | nil => intro seen; rfl
  | cons p rest ih =>
    intro seen
    cases htim : p.tim with
    | none =>
      have hmk : mkItem board p = none := by simp [mkItem, htim]
      simp [buildItems, hmk, List.filter_cons, htim, ih]
    | some t =>
      cases hext : p.ext with
      | none =>
        have hmk : mkItem board p = none := by simp [mkItem, htim, hext]
        simp [buildItems, hmk, List.filter_cons, htim, hext, ih]
      | some e =>
        have hkeep : (p.tim.isSome && p.ext.isSome) = true := by simp [htim, hext]
        simp only [List.filter_cons, hkeep, if_pos]
        simp only [buildItems]
        cases hmk : mkItem board p with
        | none => simp [mkItem, htim, hext] at hmk
        | some item =>
          by_cases hmem : item.tim ∈ seen
          · simp [hmem, ih]
          · simp [hmem, ih]

/-- C1: for every thread listing, the descriptor sequence built by
`_async_load_thread` is a sublist of the per-post descriptors in listing
order (so source order is preserved and posts lacking `tim` or `ext`
contribute nothing), its identities (`tim`) are pairwise distinct, the
descriptor kept for any identity is the first occurrence in the listing,
and dropping the attachment-less posts beforehand changes nothing. -/
theorem c1_load_thread_dedup (board : String) (posts : List Post) :
    (buildItems board posts []).Sublist (posts.filterMap (mkItem board))
    ∧ ((buildItems board posts []).map MediaItem.tim).Nodup
    ∧ (∀ t : Nat,
        (buildItems board posts []).find? (fun a => a.tim == t) =
          (posts.filterMap (mkItem board)).find? (fun a => a.tim == t))
    ∧ buildItems board posts [] =
        buildItems board (posts.filter fun p => p.tim.isSome && p.ext.isSome) [] := by
  refine ⟨?_, ?_, ?_, ?_⟩
  · rw [buildItems_eq_firstWins]
    exact firstWins_sublist _ []
  · rw [buildItems_eq_firstWins]
    exact firstWins_tims_nodup _ []
  · intro t
    rw [buildItems_eq_firstWins]
    exact firstWins_find? _ [] t (by simp)
  · exact buildItems_filter_irrelevant board posts []

/-! ## Thread loading: `AsyncWorker.fetch_json` and `_async_load_thread` -/

/-- The parsed JSON body of a thread-listing response, as a Python dict:
`posts` records presence and value of the `'posts'` key, `hasOtherKeys`
whether the dict holds any further entries (so that Python truthiness of
the dict can be evaluated). -/
structure ThreadData where
  posts : Option (List Post)
  hasOtherKeys : Bool
  deriving DecidableEq, Repr

/-- Python truthiness of the parsed dict, used by `if not data:`. -/
def ThreadData.truthy (d : ThreadData) : Bool :=
  d.posts.isSome || d.hasOtherKeys

/-- A thread-endpoint HTTP response: status code, and the parsed JSON body
(`none` when the body is unparsable, in which case `response.json()`
raises). A transport failure is modelled by the absence of any response. -/
structure JsonResp where
  status : Nat
  body : Option ThreadData
  deriving DecidableEq, Repr

/-- Embeds `AsyncWorker.fetch_json`.  The function has no `try`/`except`:
a transport failure (`resp = none`) or an unparsable success body
(`body = none`) raises and propagates, modelled as `Except.error ()`.
A non-success status returns `None` (`Except.ok none`); a success status
with parsable body returns the parsed value. -/
def fetch_json (resp : Option JsonResp) : Except Unit (Option ThreadData) :=
  match resp with
  | none => .error ()
  | some r =>
    if r.status = 200 then
      match r.body with
      | some d => .ok (some d)
      | none => .error ()
    else .ok none

/-- Outcome of `_async_load_thread` as observed by the caller: either the
"Thread not found or API error" signal, or a descriptor list. -/
inductive LoadResult where
  | apiError
  | items (l : List MediaItem)
  deriving DecidableEq, Repr

/-- Embeds `ChanScraperApp._async_load_thread`: fetch the listing JSON,
signal `apiError` when `fetch_json` returned `None` or a falsy value
(`if not data:`), otherwise build the descriptor list from
`data.get('posts', [])`.  An exception from `fetch_json` propagates
uncaught (`Except.error`). -/
def async_load_thread (board : String) (resp : Option JsonResp) :
    Except Unit LoadResult :=
  match fetch_json resp with
  | .error e => .error e
  | .ok none => .ok .apiError
  | .ok (some d) =>
    if d.truthy then .ok (.items (buildItems board (d.posts.getD []) []))
    else .ok .apiError

/-- C2, counterexample: a success-status response with an unparsable body
makes `_async_load_thread` raise (`response.json()` is not guarded by any
`try`), so the caller gets a propagated fault, not the error signal the
claim promises for "non-success status or unparsable body". -/
theorem c2_counterexample :
    async_load_thread "g" (some { status := 200, body := none }) = Except.error ()
    ∧ (Except.error () : Except Unit LoadResult) ≠ Except.ok LoadResult.apiError := by
  constructor
  · rfl
  · intro h
    exact Except.noConfusion h

/-- C2, amended: `_async_load_thread` returns the `apiError` signal (not a
thrown fault) for every non-success status and for every parsed-but-falsy
body, and a valid response whose `posts` array is empty yields the empty
descriptor sequence, distinguishable from the error signal.  (For an
unparsable body on a success status the code instead raises, see the
counterexample.) -/
theorem c2_load_thread_error_signal (board : String) :
    (∀ r : JsonResp, r.status ≠ 200 →
        async_load_thread board (some r) = Except.ok LoadResult.apiError)
    ∧ (∀ d : ThreadData, d.truthy = false →
        async_load_thread board (some { status := 200, body := some d }) =
          Except.ok LoadResult.apiError)
    ∧ (∀ d : ThreadData, d.posts = some [] →
        async_load_thread board (some { status := 200, body := some d }) =
          Except.ok (LoadResult.items []))
    ∧ (Except.ok (LoadResult.items []) : Except Unit LoadResult) ≠
        Except.ok LoadResult.apiError := by
  refine ⟨?_, ?_, ?_, ?_⟩
  · intro r hr
    simp [async_load_thread, fetch_json, hr]
  · intro d hd
    simp [async_load_thread, fetch_json, hd]
  · intro d hd
    have ht : d.truthy = true := by simp [ThreadData.truthy, hd]
    simp [async_load_thread, fetch_json, ht, hd, buildItems]
  · intro h
    have := Except.ok.inj h
    exact LoadResult.noConfusion this

/-- C2 witness: a 404 response yields the error signal, and the valid
empty-posts response yields the empty item list. -/
theorem c2_load_thread_error_signal_witness :
    async_load_thread "g" (some { status := 404, body := none }) =
        Except.ok LoadResult.apiError
    ∧ async_load_thread "g"
        (some { status := 200, body := some { posts := some [], hasOtherKeys := false } }) =
        Except.ok (LoadResult.items []) := by
  constructor
  · exact (c2_load_thread_error_signal "g").1 { status := 404, body := none } (by decide)
  · exact (c2_load_thread_error_signal "g").2.2.1
      { posts := some [], hasOtherKeys := false } rfl

/-! ## Self-update check: `AsyncWorker.check_update` -/

/-- Python `str.split(sep)` for a one-character separator, on char lists:
keeps empty pieces, and splitting the empty string yields `[[]]`. -/
def splitOnChar (sep : Char) : List Char → List (List Char)
  | [] => [[]]
  | c :: cs =>
    if c = sep then [] :: splitOnChar sep cs
    else
      match splitOnChar sep cs with
      | g :: gs => (c :: g) :: gs
      | [] => [[c]]

/-- Strip a class of characters from both ends of a char list, the helper
behind Python `str.strip` / `str.strip(chars)`. -/
def stripEnds (p : Char → Bool) (l : List Char) : List Char :=
  ((l.dropWhile p).reverse.dropWhile p).reverse

/-- Python `s.strip()`: surrounding whitespace removed. -/
def pyStrip (s : String) : String :=
  String.mk (stripEnds Char.isWhitespace s.toList)

/-- Digit run to a number, for the embedding of Python `int()`. -/
def digitsVal (l : List Char) : Nat :=
  l.foldl (fun a c => a * 10 + (c.toNat - 48)) 0

/-- Embeds Python `int(s)` on strings: strip surrounding whitespace, allow
one optional sign, then require a nonempty run of decimal digits;
`none` models the `ValueError` raised otherwise. -/
def pyInt (s : String) : Option Int :=
  match stripEnds Char.isWhitespace s.toList with
  | '-' :: ds =>
    if ds ≠ [] ∧ ds.all Char.isDigit then some (-(digitsVal ds : Int)) else none
  | '+' :: ds =>
    if ds ≠ [] ∧ ds.all Char.isDigit then some (digitsVal ds : Int) else none
  | ds =>
    if ds ≠ [] ∧ ds.all Char.isDigit then some (digitsVal ds : Int) else none

/-- Python `v_str.lstrip('v')`: drop every leading `'v'`. -/
def lstripV (s : String) : String :=
  String.mk (s.toList.dropWhile fun c => c = 'v')

/-- Embeds the inner `parse_version` of `AsyncWorker.check_update`:
`tuple(map(int, v_str.lstrip('v').split('.')))`, with any `ValueError`
collapsing to `(0, 0, 0)`. -/
def parse_version (v : String) : List Int :=
  match ((splitOnChar '.' (lstripV v).toList).map String.mk).mapM pyInt with
  | some l => l
  | none => [0, 0, 0]

/-- Python lexicographic `>` on numeric tuples (a strict prefix is smaller). -/
def tupleGt : List Int → List Int → Bool
  | _ :: _, [] => true
  | [], _ => false
  | a :: as, b :: bs => if a > b then true else if a < b then false else tupleGt as bs

/-- The release descriptor returned by the GitHub releases endpoint:
`tag_name` and `body` record key presence (`data.get(...)`), `assets`
the downloadable assets as (name, browser_download_url) pairs. -/
structure Release where
  tag_name : Option String
  body : Option String
  assets : List (String × String)
  deriving DecidableEq, Repr

/-- The release-endpoint HTTP response; `body = none` models an
unparsable body (`response.json()` raises, caught by the outer
`except`). -/
structure ReleaseResp where
  status : Nat
  body : Option Release
  deriving DecidableEq, Repr

/-- Embeds `AsyncWorker.check_update`: require an open session, fetch the
latest-release JSON (the whole request/parse is inside `try`/`except`, so
any failure falls through to `return None`), strip the tag, and report the
release data only when the remote version tuple is strictly greater than
the local one. -/
def check_update (hasSession : Bool) (resp : Option ReleaseResp) : Option Release :=
  if !hasSession then none
  else
    match resp with
    | none => none
    | some r =>
      if r.status = 200 then
        match r.body with
        | none => none
        | some data =>
          let latest_tag := pyStrip (data.tag_name.getD "")
          if latest_tag ≠ "" then
            if tupleGt (parse_version latest_tag) (parse_version APP_VERSION) then
              some data
            else none
          else none
      else none

theorem tupleGt_empty_tag_false :
    tupleGt (parse_version "") (parse_version APP_VERSION) = false := by decide

/-- C9: `check_update` reports an update exactly when a session is open,
the release fetch delivered a success-status parsable response, and the
remote tag (stripped) parses to a tuple lexicographically greater than the
local version tuple; malformed tags such as "latest" parse to the zero
tuple and never win, and in every non-reporting case the result is `none`
(the surrounding `try`/`except` means nothing is raised). -/
theorem c9_check_update (hasSession : Bool) (resp : Option ReleaseResp) :
    ((check_update hasSession resp).isSome ↔
      hasSession = true ∧ ∃ r data, resp = some r ∧ r.status = 200 ∧ r.body = some data ∧
        tupleGt (parse_version (pyStrip (data.tag_name.getD "")))
          (parse_version APP_VERSION) = true)
    ∧ (∀ data, check_update hasSession resp = some data →
        ∃ r, resp = some r ∧ r.body = some data)
    ∧ parse_version "latest" = [0, 0, 0]
    ∧ parse_version APP_VERSION = [1, 2, 0]
    ∧ tupleGt (parse_version "latest") (parse_version APP_VERSION) = false
    ∧ tupleGt (parse_version "v1.2.0") (parse_version "v1.1.9") = true
    ∧ tupleGt (parse_version "v1.2.0") (parse_version "v1.2.0") = false := by
  refine ⟨?_, ?_, by decide, by decide, by decide, by decide, by decide⟩
  · cases hasSession with
    | false => simp [check_update]
    | true =>
      cases resp with
      | none => simp [check_update]
      | some r =>
        by_cases hst : r.status = 200
        · cases hb : r.body with
          | none =>
            simp only [check_update, Bool.not_true, Bool.false_eq_true, if_false, hst,
              if_true, hb, Option.isSome_none, Bool.false_eq_true, false_iff, not_and]
            rintro - ⟨r', data', hr', -, hb', -⟩
            rw [Option.some.injEq] at hr'
            subst hr'
            rw [hb] at hb'
            exact Option.noConfusion hb'
          | some data =>
            constructor
            · intro h
              refine ⟨rfl, r, data, rfl, hst, hb, ?_⟩
              by_contra hgt
              rw [Bool.not_eq_true] at hgt
              simp [check_update, hst, hb, hgt] at h
            · rintro ⟨-, r', data', hr', -, hb', hgt⟩
              rw [Option.some.injEq] at hr'
              subst hr'
              rw [hb, Option.some.injEq] at hb'
              subst hb'
              have htag : pyStrip (data.tag_name.getD "") ≠ "" := by
                intro he
                rw [he, tupleGt_empty_tag_false] at hgt
                exact Bool.noConfusion hgt
              simp [check_update, hst, hb, htag, hgt]
        · simp only [check_update, Bool.not_true, Bool.false_eq_true, if_false, hst,
            Option.isSome_none, Bool.false_eq_true, false_iff, not_and]
          rintro - ⟨r', data', hr', hst', -, -⟩
          rw [Option.some.injEq] at hr'
          subst hr'
          exact hst hst'
  · intro data hcu
    cases hasSession with
    | false => simp [check_update] at hcu
    | true =>
      cases resp with
      | none => simp [check_update] at hcu
      | some r =>
        refine ⟨r, rfl, ?_⟩
        by_cases hst : r.status = 200
        · cases hb : r.body with
          | none => simp [check_update, hst, hb] at hcu
          | some d =>
            simp only [check_update, Bool.not_true, Bool.false_eq_true, if_false, hst,
              if_true, hb] at hcu
            by_cases htag : pyStrip (d.tag_name.getD "") ≠ ""
            · rw [if_pos htag] at hcu
              by_cases hgt : tupleGt (parse_version (pyStrip (d.tag_name.getD "")))
                  (parse_version APP_VERSION) = true
              · rw [if_pos hgt, Option.some.injEq] at hcu
                rw [hcu]
              · rw [if_neg hgt] at hcu
                exact Option.noConfusion hcu
            · rw [if_neg htag] at hcu
              exact Option.noConfusion hcu
        · simp [check_update, hst] at hcu

/-- A release strictly newer than `APP_VERSION`, for the C9 witness. -/
def relNew : Release :=
  { tag_name := some "v9.9.9", body := some "notes", assets := [] }

/-- Its successful HTTP response, for the C9 witness. -/
def respNew : ReleaseResp := { status := 200, body := some relNew }

/-- C9 witness: with an open session and a newer remote tag the check
reports the update, and the reported descriptor is the response body. -/
theorem c9_check_update_witness :
    (check_update true (some respNew)).isSome = true
    ∧ ∃ r, some respNew = some r ∧ r.body = some relNew := by
  constructor
  · exact (c9_check_update true (some respNew)).1.mpr
      ⟨rfl, respNew, relNew, rfl, rfl, rfl, by decide⟩
  · exact (c9_check_update true (some respNew)).2.1 relNew (by decide)

/-! ## URL parsing: `ChanScraperApp.parse_url` and `load_thread` -/

/-- The result of `urllib.parse.urlparse`, taken as the model boundary; only
`path` is consulted by `parse_url`. -/
structure Url where
  scheme : String
  netloc : String
  path : String
  params : String
  query : String
  fragment : String
  deriving DecidableEq, Repr

/-- Embeds `ChanScraperApp.parse_url`: on the parsed URL take
`parsed.path.strip("/").split("/")`, and when there are at least three
segments with the second equal to `"thread"` return `(parts[0], parts[2])`;
otherwise, or when `urlparse` raised (`u = none`, caught by the bare
`except`), return `(None, None)`. -/
def urlParts (url : Url) : List String :=
  (splitOnChar '/' (stripEnds (fun c => c = '/') url.path.toList)).map String.mk

def parse_url (u : Option Url) : Option String × Option String :=
  match u with
  | none => (none, none)
  | some url =>
    match urlParts url with
    | b :: t :: i :: _ => if t = "thread" then (some b, some i) else (none, none)
    | _ => (none, none)

/-- The externally visible effect of `ChanScraperApp.load_thread` up to the
point where network work is dispatched: do nothing on an empty entry,
report "Invalid URL format" on a failed parse, otherwise dispatch
`_async_load_thread` for the parsed board and thread id. -/
inductive LoadAction where
  | noop
  | invalid
  | request (board tid : String)
  deriving DecidableEq, Repr

/-- Embeds `ChanScraperApp.load_thread`: strip the entry text, return on
empty input, parse the URL, treat a falsy board (`if not self.board:`) as
an invalid URL without issuing any request, and otherwise dispatch the
fetch for `(board, thread_id)`. -/
def load_thread (urlText : String) (u : Option Url) : LoadAction :=
  if pyStrip urlText = "" then .noop
  else
    match parse_url u with
    | (some b, t) => if b = "" then .invalid else .request b (t.getD "None")
    | (none, _) => .invalid

/-- C10: `parse_url` returns `(first, third)` path segments exactly when the
slash-stripped, slash-split path has at least three segments whose second is
`"thread"`; in every other case — including a raising `urlparse`, modelled
by `u = none` — it returns `(None, None)`, and `load_thread` issues a
network request only when the parse succeeded. -/
theorem c10_parse_url (u : Option Url) (s : String) :
    (u = none → parse_url u = (none, none))
    ∧ (∀ url, u = some url →
        ((parse_url u ≠ (none, none)) ↔
          (3 ≤ (urlParts url).length ∧ (urlParts url).get? 1 = some "thread")))
    ∧ (∀ url, u = some url → parse_url u ≠ (none, none) →
        parse_url u = ((urlParts url).get? 0, (urlParts url).get? 2))
    ∧ (parse_url u = (none, none) → ∀ b t, load_thread s u ≠ LoadAction.request b t) := by
  refine ⟨?_, ?_, ?_, ?_⟩
  · intro hu; subst hu; rfl
  · rintro url rfl
    cases hparts : urlParts url with
    | nil => simp [parse_url, hparts]
    | cons b rest =>
      cases rest with
      | nil => simp [parse_url, hparts]
      | cons t rest2 =>
        cases rest2 with
        | nil => simp [parse_url, hparts]
        | cons i rest3 =>
          by_cases ht : t = "thread"
          · subst ht
            simp only [parse_url, hparts, if_pos rfl, List.length_cons, List.get?]
            constructor
            · intro _; exact ⟨by omega, by simp [List.get?]⟩
            · intro _
              intro h
              exact Option.noConfusion (congrArg Prod.fst h)
          · simp only [parse_url, hparts, if_neg ht, List.length_cons, List.get?,
              ne_eq, not_true_eq_false, false_iff, not_and]
            intro _
            intro h
            exact ht (Option.some.inj h)
  · rintro url rfl hne
    cases hparts : urlParts url with
    | nil => exact absurd (by simp [parse_url, hparts]) hne
    | cons b rest =>
      cases rest with
      | nil => exact absurd (by simp [parse_url, hparts]) hne
      | cons t rest2 =>
        cases rest2 with
        | nil => exact absurd (by simp [parse_url, hparts]) hne
        | cons i rest3 =>
          by_cases ht : t = "thread"
          · subst ht
            simp [parse_url, hparts]
          · exact absurd (by simp [parse_url, hparts, ht]) hne
  · intro hp b t
    by_cases hempty : pyStrip s = ""
    · simp [load_thread, hempty]
    · simp [load_thread, hempty, hp]

/-- A well-formed thread URL, for the C10 witness. -/
def urlG : Url :=
  { scheme := "https", netloc := "boards.4chan.org", path := "/g/thread/123",
    params := "", query := "", fragment := "" }

/-- C10 witness: the canonical thread URL parses to its board and id, and a
raising `urlparse` never leads to a network request. -/
theorem c10_parse_url_witness :
    parse_url (some urlG) = (some "g", some "123")
    ∧ ∀ b t, load_thread "x" none ≠ LoadAction.request b t := by
  constructor
  · have h := (c10_parse_url (some urlG) "x").2.2.1 urlG rfl (by decide)
    rw [h]
    decide
  · exact (c10_parse_url none "x").2.2.2 rfl

/-! ## Batched thumbnail fetching: `fetch_image_bytes` and `_fetch_thumbnails` -/

/-- A media-resource HTTP response; `body = none` models `response.read()`
raising (which `fetch_image_bytes` catches). -/
structure HttpResp where
  status : Nat
  body : Option Bytes
  deriving DecidableEq, Repr

/-- Embeds `AsyncWorker.fetch_image_bytes`: the whole request is inside
`try`/`except`, so a transport failure (`env url = none`), a non-success
status, or a raising body read all produce `None`. -/
def fetch_image_bytes (env : String → Option HttpResp) (url : String) : Option Bytes :=
  match env url with
  | some r => if r.status = 200 then r.body else none
  | none => none

/-- Embeds the chunk loop of `ChanScraperApp._fetch_thumbnails`: walk the
item list ten at a time; for each chunk fetch every thumbnail (the
`asyncio.gather` result list is in task order) and deliver the callback
notification `(chunk results, starting offset)`.  The returned list is in
delivery order. -/
def fetchChunks (env : String → Option HttpResp) :
    List MediaItem → Nat → List (Nat × List (Option Bytes))
  | [], _ => []
  | it :: rest, i =>
    (i, ((it :: rest).take 10).map fun m => fetch_image_bytes env m.thumb_url) ::
      fetchChunks env ((it :: rest).drop 10) (i + 10)
  termination_by l _ => l.length
  decreasing_by simp [List.length_drop]; omega

/-- The flat result sequence delivered by `_fetch_thumbnails`, chunk after
chunk. -/
def fetchManyResults (env : String → Option HttpResp) (items : List MediaItem) :
    List (Option Bytes) :=
  ((fetchChunks env items 0).map Prod.snd).flatten

theorem fetchChunks_flatten (env : String → Option HttpResp) :
    ∀ (n : Nat) (items : List MediaItem) (i : Nat), items.length ≤ n →
      ((fetchChunks env items i).map Prod.snd).flatten =
        items.map fun m => fetch_image_bytes env m.thumb_url := by
  intro n
  induction n with
  | zero =>
    intro items i hlen
    have : items = [] := List.eq_nil_of_length_eq_zero (Nat.le_zero.1 hlen)
    subst this
    simp only [fetchChunks, List.map_nil, List.flatten_nil]
  | succ n ih =>
    intro items i hlen
    cases items with
    | nil => simp only [fetchChunks, List.map_nil, List.flatten_nil]
    | cons it rest =>
      simp only [fetchChunks, List.map_cons, List.flatten_cons]
      rw [ih ((it :: rest).drop 10) (i + 10)
        (by simp only [List.length_drop, List.length_cons] at hlen ⊢; omega)]
      rw [← List.map_append, List.take_append_drop]
      simp only [List.map_cons]

theorem fetchChunks_get? (env : String → Option HttpResp) :
    ∀ (n : Nat) (items : List MediaItem) (i k : Nat), items.length ≤ n →
      (fetchChunks env items i).get? k =
        if 10 * k < items.length then
          some (i + 10 * k,
            ((items.drop (10 * k)).take 10).map fun m => fetch_image_bytes env m.thumb_url)
        else none := by
  intro n
  induction n with
  | zero =>
    intro items i k hlen
    have : items = [] := List.eq_nil_of_length_eq_zero (Nat.le_zero.1 hlen)
    subst this
    simp [fetchChunks]
  | succ n ih =>
    intro items i k hlen
    cases items with
    | nil => simp [fetchChunks]
    | cons it rest =>
      simp only [fetchChunks]
      cases k with
      | zero =>
        simp only [List.get?, Nat.mul_zero, List.drop_zero, Nat.add_zero]
        rw [if_pos (by simp)]
      | succ k =>
        simp only [List.get?]
        rw [ih ((it :: rest).drop 10) (i + 10) k
          (by simp only [List.length_drop, List.length_cons] at hlen ⊢; omega)]
        simp only [List.length_drop, List.drop_drop]
        by_cases h : 10 * (k + 1) < (it :: rest).length
        · rw [if_pos (by simp only [List.length_cons] at h ⊢; omega), if_pos h]
          have h1 : 10 + 10 * k = 10 * (k + 1) := by ring
          have h2 : i + 10 + 10 * k = i + 10 * (k + 1) := by ring
          rw [h1, h2]
        · rw [if_neg (by simp only [List.length_cons] at h ⊢; omega), if_neg h]

theorem fetchChunks_length (env : String → Option HttpResp) :
    ∀ (n : Nat) (items : List MediaItem) (i : Nat), items.length ≤ n →
      (fetchChunks env items i).length = (items.length + 9) / 10 := by
  intro n
  induction n with
  | zero =>
    intro items i hlen
    have : items = [] := List.eq_nil_of_length_eq_zero (Nat.le_zero.1 hlen)
    subst this
    simp [fetchChunks]
  | succ n ih =>
    intro items i hlen
    cases items with
    | nil => simp [fetchChunks]
    | cons it rest =>
      simp only [fetchChunks, List.length_cons]
      rw [ih ((it :: rest).drop 10) (i + 10)
        (by simp only [List.length_drop, List.length_cons] at hlen ⊢; omega)]
      simp only [List.length_drop, List.length_cons]
      omega

/-- C5: the flat result sequence of `_fetch_thumbnails` has the same length
and order as the input, the slot at every position is exactly the fetch
result for that position's thumbnail URL, and a failed request — transport
error or non-success status — contributes a `None` slot at its own
position only. -/
theorem c5_fetch_many (env : String → Option HttpResp) (items : List MediaItem) :
    (fetchManyResults env items).length = items.length
    ∧ (∀ j : Nat, (fetchManyResults env items).get? j =
        (items.get? j).map fun m => fetch_image_bytes env m.thumb_url)
    ∧ (∀ j m, items.get? j = some m → env m.thumb_url = none →
        (fetchManyResults env items).get? j = some none)
    ∧ (∀ j m r, items.get? j = some m → env m.thumb_url = some r → r.status ≠ 200 →
        (fetchManyResults env items).get? j = some none) := by
  have hjoin : fetchManyResults env items =
      items.map fun m => fetch_image_bytes env m.thumb_url :=
    fetchChunks_flatten env items.length items 0 le_rfl
  refine ⟨?_, ?_, ?_, ?_⟩
  · rw [hjoin, List.length_map]
  · intro j
    rw [hjoin, List.get?_map]
  · intro j m hj henv
    rw [hjoin, List.get?_map, hj]
    simp [fetch_image_bytes, henv]
  · intro j m r hj henv hst
    rw [hjoin, List.get?_map, hj]
    simp [fetch_image_bytes, henv, hst]

/-- C5 witness: a two-item list where the first request fails with a 404 and
the second has no response at all yields `[none, none]` in order. -/
theorem c5_fetch_many_witness :
    (fetchManyResults (fun _ => none)
        [{ tim := 1, ext := ".jpg", filename := "", board := "g", fsize := 0 }]).get? 0 =
      some none := by
  exact (c5_fetch_many (fun _ => none)
      [{ tim := 1, ext := ".jpg", filename := "", board := "g", fsize := 0 }]).2.2.1 0
    { tim := 1, ext := ".jpg", filename := "", board := "g", fsize := 0 } rfl rfl

/-- C6: `_fetch_thumbnails` delivers one notification per ten-item chunk, in
chunk order: the k-th delivered notification carries starting offset
`10 * k` and exactly the results of input positions `10 * k` up to
`10 * k + 9` (the final chunk may be shorter); hence chunk k is delivered
before chunk k + 1 and every chunk completes before the next is started. -/
theorem c6_chunking (env : String → Option HttpResp) (items : List MediaItem) :
    (fetchChunks env items 0).length = (items.length + 9) / 10
    ∧ (∀ k : Nat, (fetchChunks env items 0).get? k =
        if 10 * k < items.length then
          some (10 * k,
            ((items.drop (10 * k)).take 10).map fun m => fetch_image_bytes env m.thumb_url)
        else none)
    ∧ (∀ k : Nat, ((fetchChunks env items 0).get? k).map (fun p => p.2.length) =
        if 10 * k < items.length then some (min 10 (items.length - 10 * k)) else none) := by
  refine ⟨fetchChunks_length env items.length items 0 le_rfl, ?_, ?_⟩
  · intro k
    have h := fetchChunks_get? env items.length items 0 k le_rfl
    simpa using h
  · intro k
    have h := fetchChunks_get? env items.length items 0 k le_rfl
    rw [Nat.zero_add] at h
    rw [h]
    by_cases hk : 10 * k < items.length
    · rw [if_pos hk, if_pos hk]
      simp [List.length_take, List.length_drop]
    · rw [if_neg hk, if_neg hk]
      rfl

/-! ## Download pipeline: `start_download` and `_download_files` -/

/-- Python truthiness of `data` after `data = await fetch_image_bytes(...)`:
`None` and the empty byte string are falsy. -/
def pyTruthy (b : Option Bytes) : Bool :=
  match b with
  | some d => !d.isEmpty
  | none => false

/-- The observable outcome of one `_download_files` run: the files present
at the destination afterwards (`disk`), the final `success_count`, the
number of network fetches issued, the per-item success flags in item order,
and the progress percentages and `(succeededSoFar, total)` status pairs
emitted after each item, in emission order. -/
structure DlResult where
  disk : List String
  succ : Nat
  calls : Nat
  outcomes : List Bool
  pcts : List ℚ
  pairs : List (Nat × Nat)
  deriving DecidableEq, Repr

/-- Embeds the loop of `ChanScraperApp._download_files`.  `net` gives the
full-resource fetch results, `w fname` whether writing `fname` succeeds
(an exception while writing is logged and the item skipped), `disk` the
set of filenames already present at `save_path`.  For each item: count an
existing file as success with no fetch; otherwise fetch, and on truthy
data attempt the write; after every item emit the progress percentage
`((i + 1) / total) * 100` and the status pair `(success_count, total)`. -/
def dlGo (net : String → Option Bytes) (w : String → Bool) (total : Nat) :
    List MediaItem → Nat → List String → Nat → Nat → DlResult
  | [], _, disk, succ, calls =>
    { disk := disk, succ := succ, calls := calls, outcomes := [], pcts := [], pairs := [] }
  | it :: rest, i, disk, succ, calls =>
    if it.local_filename ∈ disk then
      let r := dlGo net w total rest (i + 1) disk (succ + 1) calls
      { r with outcomes := true :: r.outcomes,
               pcts := ((i : ℚ) + 1) / (total : ℚ) * 100 :: r.pcts,
               pairs := (succ + 1, total) :: r.pairs }
    else
      if pyTruthy (net it.full_url) then
        if w it.local_filename then
          let r := dlGo net w total rest (i + 1) (it.local_filename :: disk) (succ + 1) (calls + 1)
          { r with outcomes := true :: r.outcomes,
                   pcts := ((i : ℚ) + 1) / (total : ℚ) * 100 :: r.pcts,
                   pairs := (succ + 1, total) :: r.pairs }
        else
          let r := dlGo net w total rest (i + 1) disk succ (calls + 1)
          { r with outcomes := false :: r.outcomes,
                   pcts := ((i : ℚ) + 1) / (total : ℚ) * 100 :: r.pcts,
                   pairs := (succ, total) :: r.pairs }
      else
        let r := dlGo net w total rest (i + 1) disk succ (calls + 1)
        { r with outcomes := false :: r.outcomes,
                 pcts := ((i : ℚ) + 1) / (total : ℚ) * 100 :: r.pcts,
                 pairs := (succ, total) :: r.pairs }

/-- `ChanScraperApp._download_files` on a selection and an initial
destination state: `total_items = len(items)`, counters start at zero. -/
def download_files (net : String → Option Bytes) (w : String → Bool)
    (items : List MediaItem) (disk : List String) : DlResult :=
  dlGo net w items.length items 0 disk 0 0

/-- Outcome of `ChanScraperApp.start_download`: either the surfaced
"Could not create folder" error, or the scheduled `_download_files` run. -/
inductive StartOutcome where
  | dirError
  | started (r : DlResult)
  deriving DecidableEq, Repr

/-- Embeds `ChanScraperApp.start_download`: `save_path.mkdir(parents=True,
exist_ok=True)` happens first; on failure (`mkdirOk = false`) the error is
surfaced and nothing else runs; on success `_download_files` is scheduled. -/
def start_download (mkdirOk : Bool) (net : String → Option Bytes) (w : String → Bool)
    (items : List MediaItem) (disk : List String) : StartOutcome :=
  if mkdirOk then .started (download_files net w items disk) else .dirError

/-- Network fetches issued by a `start_download` invocation. -/
def startCalls : StartOutcome → Nat
  | .dirError => 0
  | .started r => r.calls

theorem dlGo_param (net : String → Option Bytes) (w : String → Bool) :
    ∀ (items : List MediaItem) (t t' i i' s s' c c' : Nat) (d : List String),
      (dlGo net w t' items i' d s' c').disk = (dlGo net w t items i d s c).disk
      ∧ (dlGo net w t' items i' d s' c').outcomes = (dlGo net w t items i d s c).outcomes
      ∧ (dlGo net w t' items i' d s' c').succ + s = (dlGo net w t items i d s c).succ + s'
      ∧ (dlGo net w t' items i' d s' c').calls + c = (dlGo net w t items i d s c).calls + c' := by
  intro items
  induction items with
  | nil => intro t t' i i' s s' c c' d; simp [dlGo]; omega
  | cons it rest ih =>
    intro t t' i i' s s' c c' d
    by_cases hmem : it.local_filename ∈ d
    · simp only [dlGo, if_pos hmem]
      have h := ih t t' (i + 1) (i' + 1) (s + 1) (s' + 1) c c' d
      refine ⟨h.1, by rw [h.2.1], by have := h.2.2.1; omega, by have := h.2.2.2; omega⟩
    · by_cases htr : pyTruthy (net it.full_url) = true
      · by_cases hw : w it.local_filename = true
        · simp only [dlGo, if_neg hmem, if_pos htr, if_pos hw]
          have h := ih t t' (i + 1) (i' + 1) (s + 1) (s' + 1) (c + 1) (c' + 1)
            (it.local_filename :: d)
          refine ⟨h.1, by rw [h.2.1], by have := h.2.2.1; omega, by have := h.2.2.2; omega⟩
        · simp only [dlGo, if_neg hmem, if_pos htr, if_neg hw]
          have h := ih t t' (i + 1) (i' + 1) s s' (c + 1) (c' + 1) d
          refine ⟨h.1, by rw [h.2.1], by have := h.2.2.1; omega, by have := h.2.2.2; omega⟩
      · simp only [dlGo, if_neg hmem, if_neg htr]
        have h := ih t t' (i + 1) (i' + 1) s s' (c + 1) (c' + 1) d
        refine ⟨h.1, by rw [h.2.1], by have := h.2.2.1; omega, by have := h.2.2.2; omega⟩

theorem dlGo_succ_count (net : String → Option Bytes) (w : String → Bool) (t : Nat) :
    ∀ (items : List MediaItem) (i : Nat) (d : List String) (s c : Nat),
      (dlGo net w t items i d s c).succ =
        s + (dlGo net w t items i d s c).outcomes.count true := by
  intro items
  induction items with
  | nil => intro i d s c; simp [dlGo]
  | cons it rest ih =>
    intro i d s c
    by_cases hmem : it.local_filename ∈ d
    · simp only [dlGo, if_pos hmem, List.count_cons]
      rw [ih (i + 1) d (s + 1) c]
      simp
      omega
    · by_cases htr : pyTruthy (net it.full_url) = true
      · by_cases hw : w it.local_filename = true
        · simp only [dlGo, if_neg hmem, if_pos htr, if_pos hw, List.count_cons]
          rw [ih (i + 1) (it.local_filename :: d) (s + 1) (c + 1)]
          simp
          omega
        · simp only [dlGo, if_neg hmem, if_pos htr, if_neg hw, List.count_cons]
          rw [ih (i + 1) d s (c + 1)]
          simp
      · simp only [dlGo, if_neg hmem, if_neg htr, List.count_cons]
        rw [ih (i + 1) d s (c + 1)]
        simp

theorem dlGo_lengths (net : String → Option Bytes) (w : String → Bool) (t : Nat) :
    ∀ (items : List MediaItem) (i : Nat) (d : List String) (s c : Nat),
      (dlGo net w t items i d s c).outcomes.length = items.length
      ∧ (dlGo net w t items i d s c).pcts.length = items.length
      ∧ (dlGo net w t items i d s c).pairs.length = items.length := by
  intro items
  induction items with
  | nil => intro i d s c; simp [dlGo]
  | cons it rest ih =>
    intro i d s c
    by_cases hmem : it.local_filename ∈ d
    · simp only [dlGo, if_pos hmem, List.length_cons]
      have h := ih (i + 1) d (s + 1) c
      exact ⟨by rw [h.1], by rw [h.2.1], by rw [h.2.2]⟩
    · by_cases htr : pyTruthy (net it.full_url) = true
      · by_cases hw : w it.local_filename = true
        · simp only [dlGo, if_neg hmem, if_pos htr, if_pos hw, List.length_cons]
          have h := ih (i + 1) (it.local_filename :: d) (s + 1) (c + 1)
          exact ⟨by rw [h.1], by rw [h.2.1], by rw [h.2.2]⟩
        · simp only [dlGo, if_neg hmem, if_pos htr, if_neg hw, List.length_cons]
          have h := ih (i + 1) d s (c + 1)
          exact ⟨by rw [h.1], by rw [h.2.1], by rw [h.2.2]⟩
      · simp only [dlGo, if_neg hmem, if_neg htr, List.length_cons]
        have h := ih (i + 1) d s (c + 1)
        exact ⟨by rw [h.1], by rw [h.2.1], by rw [h.2.2]⟩

theorem dlGo_disk_mono (net : String → Option Bytes) (w : String → Bool) (t : Nat) :
    ∀ (items : List MediaItem) (i : Nat) (d : List String) (s c : Nat) (x : String),
      x ∈ d → x ∈ (dlGo net w t items i d s c).disk := by
  intro items
  induction items with
  | nil => intro i d s c x hx; simpa [dlGo] using hx
  | cons it rest ih =>
    intro i d s c x hx
    by_cases hmem : it.local_filename ∈ d
    · simp only [dlGo, if_pos hmem]
      exact ih (i + 1) d (s + 1) c x hx
    · by_cases htr : pyTruthy (net it.full_url) = true
      · by_cases hw : w it.local_filename = true
        · simp only [dlGo, if_neg hmem, if_pos htr, if_pos hw]
          exact ih (i + 1) (it.local_filename :: d) (s + 1) (c + 1) x
            (List.mem_cons_of_mem _ hx)
        · simp only [dlGo, if_neg hmem, if_pos htr, if_neg hw]
          exact ih (i + 1) d s (c + 1) x hx
      · simp only [dlGo, if_neg hmem, if_neg htr]
        exact ih (i + 1) d s (c + 1) x hx

theorem dlGo_disk_new (net : String → Option Bytes) (w : String → Bool) (t : Nat) :
    ∀ (items : List MediaItem) (i : Nat) (d : List String) (s c : Nat) (f : String),
      f ∈ (dlGo net w t items i d s c).disk →
        f ∈ d ∨ ∃ it, it ∈ items ∧ f = it.local_filename := by
  intro items
  induction items with
  | nil => intro i d s c f hf; exact Or.inl (by simpa [dlGo] using hf)
  | cons it rest ih =>
    intro i d s c f hf
    by_cases hmem : it.local_filename ∈ d
    · simp only [dlGo, if_pos hmem] at hf
      rcases ih (i + 1) d (s + 1) c f hf with h | ⟨it', hm, he⟩
      · exact Or.inl h
      · exact Or.inr ⟨it', List.mem_cons_of_mem _ hm, he⟩
    · by_cases htr : pyTruthy (net it.full_url) = true
      · by_cases hw : w it.local_filename = true
        · simp only [dlGo, if_neg hmem, if_pos htr, if_pos hw] at hf
          rcases ih (i + 1) (it.local_filename :: d) (s + 1) (c + 1) f hf with h | ⟨it', hm, he⟩
          · rcases List.mem_cons.1 h with h | h
            · exact Or.inr ⟨it, List.mem_cons_self it rest, h⟩
            · exact Or.inl h
          · exact Or.inr ⟨it', List.mem_cons_of_mem _ hm, he⟩
        · simp only [dlGo, if_neg hmem, if_pos htr, if_neg hw] at hf
          rcases ih (i + 1) d s (c + 1) f hf with h | ⟨it', hm, he⟩
          · exact Or.inl h
          · exact Or.inr ⟨it', List.mem_cons_of_mem _ hm, he⟩
      · simp only [dlGo, if_neg hmem, if_neg htr] at hf
        rcases ih (i + 1) d s (c + 1) f hf with h | ⟨it', hm, he⟩
        · exact Or.inl h
        · exact Or.inr ⟨it', List.mem_cons_of_mem _ hm, he⟩

theorem dlGo_all_present (net : String → Option Bytes) (w : String → Bool) (t : Nat) :
    ∀ (items : List MediaItem) (i : Nat) (d : List String) (s c : Nat),
      (∀ it, it ∈ items → it.local_filename ∈ d) →
      (dlGo net w t items i d s c).disk = d
      ∧ (dlGo net w t items i d s c).succ = s + items.length
      ∧ (dlGo net w t items i d s c).calls = c := by
  intro items
  induction items with
  | nil => intro i d s c _; simp [dlGo]
  | cons it rest ih =>
    intro i d s c hall
    have hmem : it.local_filename ∈ d := hall it (List.mem_cons_self it rest)
    simp only [dlGo, if_pos hmem]
    have h := ih (i + 1) d (s + 1) c (fun x hx => hall x (List.mem_cons_of_mem _ hx))
    exact ⟨h.1, by rw [h.2.1]; simp [List.length_cons]; omega, h.2.2⟩

theorem dlGo_full_present (net : String → Option Bytes) (w : String → Bool) (t : Nat) :
    ∀ (items : List MediaItem) (i : Nat) (d : List String) (s c : Nat),
      (dlGo net w t items i d s c).succ = s + items.length →
      ∀ it, it ∈ items → it.local_filename ∈ (dlGo net w t items i d s c).disk := by
  intro items
  induction items with
  | nil => intro i d s c _ it hit; exact absurd hit (List.not_mem_nil it)
  | cons it rest ih =>
    intro i d s c hsucc x hx
    by_cases hmem : it.local_filename ∈ d
    · simp only [dlGo, if_pos hmem] at hsucc ⊢
      have hs : (dlGo net w t rest (i + 1) d (s + 1) c).succ = (s + 1) + rest.length := by
        simp only [List.length_cons] at hsucc
        omega
      rcases List.mem_cons.1 hx with rfl | hx
      · exact dlGo_disk_mono net w t rest (i + 1) d (s + 1) c _ hmem
      · exact ih (i + 1) d (s + 1) c hs x hx
    · by_cases htr : pyTruthy (net it.full_url) = true
      · by_cases hw : w it.local_filename = true
        · simp only [dlGo, if_neg hmem, if_pos htr, if_pos hw] at hsucc ⊢
          have hs : (dlGo net w t rest (i + 1) (it.local_filename :: d) (s + 1)
              (c + 1)).succ = (s + 1) + rest.length := by
            simp only [List.length_cons] at hsucc
            omega
          rcases List.mem_cons.1 hx with rfl | hx
          · exact dlGo_disk_mono net w t rest (i + 1) _ (s + 1) (c + 1) _
              (List.mem_cons_self _ _)
          · exact ih (i + 1) (it.local_filename :: d) (s + 1) (c + 1) hs x hx
        · exfalso
          simp only [dlGo, if_neg hmem, if_pos htr, if_neg hw] at hsucc
          have h1 := dlGo_succ_count net w t rest (i + 1) d s (c + 1)
          have h2 : (dlGo net w t rest (i + 1) d s (c + 1)).outcomes.count true ≤
              rest.length := by
            have := (dlGo_lengths net w t rest (i + 1) d s (c + 1)).1
            calc (dlGo net w t rest (i + 1) d s (c + 1)).outcomes.count true
                ≤ (dlGo net w t rest (i + 1) d s (c + 1)).outcomes.length :=
                  List.count_le_length _ _
              _ = rest.length := this
          simp only [List.length_cons] at hsucc
          omega
      · exfalso
        simp only [dlGo, if_neg hmem, if_neg htr] at hsucc
        have h1 := dlGo_succ_count net w t rest (i + 1) d s (c + 1)
        have h2 : (dlGo net w t rest (i + 1) d s (c + 1)).outcomes.count true ≤
            rest.length := by
          have := (dlGo_lengths net w t rest (i + 1) d s (c + 1)).1
          calc (dlGo net w t rest (i + 1) d s (c + 1)).outcomes.count true
              ≤ (dlGo net w t rest (i + 1) d s (c + 1)).outcomes.length :=
                List.count_le_length _ _
            _ = rest.length := this
        simp only [List.length_cons] at hsucc
        omega

theorem dlGo_pcts_formula (net : String → Option Bytes) (w : String → Bool) (t : Nat) :
    ∀ (items : List MediaItem) (i : Nat) (d : List String) (s c : Nat),
      (dlGo net w t items i d s c).pcts =
        (List.range items.length).map
          (fun j => (((i + j : Nat) : ℚ) + 1) / (t : ℚ) * 100) := by
  intro items
  induction items with
  | nil => intro i d s c; simp [dlGo]
  | cons it rest ih =>
    intro i d s c
    have hstep : ∀ (d' : List String) (s' c' : Nat),
        (((i : ℚ) + 1) / (t : ℚ) * 100 :: (dlGo net w t rest (i + 1) d' s' c').pcts) =
          (List.range (it :: rest).length).map
            (fun j => (((i + j : Nat) : ℚ) + 1) / (t : ℚ) * 100) := by
      intro d' s' c'
      rw [ih (i + 1) d' s' c']
      simp only [List.length_cons, List.range_succ_eq_map, List.map_cons, List.map_map]
      refine congrArg₂ List.cons (by norm_num) ?_
      apply List.map_congr_left
      intro j hj
      simp only [Function.comp_apply, Nat.succ_eq_add_one]
      rw [show i + 1 + j = i + (j + 1) from by omega]
    by_cases hmem : it.local_filename ∈ d
    · simp only [dlGo, if_pos hmem]
      exact hstep d (s + 1) c
    · by_cases htr : pyTruthy (net it.full_url) = true
      · by_cases hw : w it.local_filename = true
        · simp only [dlGo, if_neg hmem, if_pos htr, if_pos hw]
          exact hstep (it.local_filename :: d) (s + 1) (c + 1)
        · simp only [dlGo, if_neg hmem, if_pos htr, if_neg hw]
          exact hstep d s (c + 1)
      · simp only [dlGo, if_neg hmem, if_neg htr]
        exact hstep d s (c + 1)

theorem mapRange_chain_of_step (f : Nat → ℚ) (hf : ∀ k, f k ≤ f (k + 1)) :
    ∀ n : Nat, ((List.range n).map f).Chain' (fun a b => a ≤ b) := by
  intro n
  induction n with
  | zero => simp
  | succ n ih =>
    rw [List.range_succ, List.map_append]
    rw [List.chain'_append]
    refine ⟨ih, by simp, ?_⟩
    intro x hx y hy
    simp only [List.map_cons, List.map_nil, List.head?_cons, Option.mem_def,
      Option.some.injEq] at hy
    subst hy
    cases n with
    | zero => simp at hx
    | succ m =>
      rw [List.range_succ, List.map_append, List.getLast?_append_of_ne_nil _ (by simp)] at hx
      simp only [List.map_cons, List.map_nil, List.getLast?_singleton, Option.mem_def,
        Option.some.injEq] at hx
      subst hx
      exact hf m

theorem mapRange_getLast? (f : Nat → ℚ) :
    ∀ n : Nat, 0 < n → ((List.range n).map f).getLast? = some (f (n - 1)) := by
  intro n hn
  cases n with
  | zero => exact absurd hn (by simp)
  | succ m =>
    rw [List.range_succ, List.map_append]
    rw [List.getLast?_append_of_ne_nil _ (by simp)]
    simp

theorem dlGo_pairs_spec (net : String → Option Bytes) (w : String → Bool) (t : Nat) :
    ∀ (items : List MediaItem) (i : Nat) (d : List String) (s c : Nat),
      (dlGo net w t items i d s c).pairs.Chain' (fun a b => a.1 ≤ b.1)
      ∧ ∀ p, p ∈ (dlGo net w t items i d s c).pairs → s ≤ p.1 ∧ p.2 = t := by
  intro items
  induction items with
  | nil => intro i d s c; simp [dlGo]
  | cons it rest ih =>
    intro i d s c
    have hstep : ∀ (d' : List String) (s' c' : Nat), s ≤ s' →
        (((s', t) :: (dlGo net w t rest (i + 1) d' s' c').pairs).Chain'
          (fun a b => a.1 ≤ b.1))
        ∧ ∀ p, p ∈ ((s', t) :: (dlGo net w t rest (i + 1) d' s' c').pairs) →
            s ≤ p.1 ∧ p.2 = t := by
      intro d' s' c' hss
      have h := ih (i + 1) d' s' c'
      constructor
      · rw [List.chain'_cons']
        refine ⟨?_, h.1⟩
        intro b hb
        exact (h.2 b (List.mem_of_mem_head? hb)).1
      · intro p hp
        rcases List.mem_cons.1 hp with rfl | hp
        · exact ⟨hss, rfl⟩
        · exact ⟨le_trans hss (h.2 p hp).1, (h.2 p hp).2⟩
    by_cases hmem : it.local_filename ∈ d
    · simp only [dlGo, if_pos hmem]
      exact hstep d (s + 1) c (Nat.le_succ s)
    · by_cases htr : pyTruthy (net it.full_url) = true
      · by_cases hw : w it.local_filename = true
        · simp only [dlGo, if_neg hmem, if_pos htr, if_pos hw]
          exact hstep (it.local_filename :: d) (s + 1) (c + 1) (Nat.le_succ s)
        · simp only [dlGo, if_neg hmem, if_pos htr, if_neg hw]
          exact hstep d s (c + 1) le_rfl
      · simp only [dlGo, if_neg hmem, if_neg htr]
        exact hstep d s (c + 1) le_rfl

/-- A concrete media item used by the download counterexamples/witnesses. -/
def item111 : MediaItem :=
  { tim := 111, ext := ".jpg", filename := "a", board := "g", fsize := 0 }

/-- A network on which every fetch fails. -/
def netNone : String → Option Bytes := fun _ => none

/-- A network on which every fetch yields one byte. -/
def netGood : String → Option Bytes := fun _ => some [1]

/-- A file system on which every write succeeds. -/
def wAll : String → Bool := fun _ => true

/-- A file system on which every write fails. -/
def wNone : String → Bool := fun _ => false

/-- C3, counterexample: when the first run fails to fetch an item, a second
run of `_download_files` with the same selection and destination neither
counts every item as succeeded nor avoids network calls — it retries the
missing file.  The claimed unconditional idempotence is false. -/
theorem c3_counterexample :
    ¬ ((download_files netNone wAll [item111]
          ((download_files netNone wAll [item111] []).disk)).succ = 1
       ∧ (download_files netNone wAll [item111]
          ((download_files netNone wAll [item111] []).disk)).calls = 0) := by
  decide

/-- C3, amended: if the first `_download_files` run succeeded on every item,
then the second run over the same selection and destination counts every
item as succeeded, performs no network call, and leaves the set of files on
disk unchanged. -/
theorem c3_download_idempotent (net : String → Option Bytes) (w : String → Bool)
    (items : List MediaItem) (d : List String)
    (h : (download_files net w items d).succ = items.length) :
    (download_files net w items ((download_files net w items d).disk)).succ = items.length
    ∧ (download_files net w items ((download_files net w items d).disk)).calls = 0
    ∧ (download_files net w items ((download_files net w items d).disk)).disk =
        (download_files net w items d).disk := by
  have hall : ∀ it, it ∈ items → it.local_filename ∈ (download_files net w items d).disk := by
    intro it hit
    refine dlGo_full_present net w items.length items 0 d 0 0 ?_ it hit
    simpa [download_files] using h
  have h2 := dlGo_all_present net w items.length items 0
    ((download_files net w items d).disk) 0 0 hall
  refine ⟨?_, ?_, ?_⟩
  · simpa [download_files] using h2.2.1
  · simpa [download_files] using h2.2.2
  · simpa [download_files] using h2.1

/-- C3 witness: a fully successful run (one item, network and write both
succeed) re-run on its own output disk. -/
theorem c3_download_idempotent_witness :
    (download_files netGood wAll [item111]
        ((download_files netGood wAll [item111] []).disk)).succ = 1
    ∧ (download_files netGood wAll [item111]
        ((download_files netGood wAll [item111] []).disk)).calls = 0 := by
  have h := c3_download_idempotent netGood wAll [item111] [] (by decide)
  exact ⟨h.1, h.2.1⟩

/-- C4: for every `_download_files` run, the final `success_count` is the
number of `true` per-item outcomes (hence at most the item count); an item
contributes a success exactly when its file was already present (no fetch)
or its fetch was truthy and the write succeeded — witnessed by the
step equations over every disk state — and every file present afterwards
was either present before or is named `{identity}{ext}` for some item of
the selection. -/
theorem c4_download_accounting (net : String → Option Bytes) (w : String → Bool)
    (items : List MediaItem) (d : List String) :
    (download_files net w items d).succ ≤ items.length
    ∧ (download_files net w items d).succ = (download_files net w items d).outcomes.count true
    ∧ (download_files net w items d).outcomes.length = items.length
    ∧ (∀ it rest d₀, it.local_filename ∈ d₀ →
        (download_files net w (it :: rest) d₀).succ =
          (download_files net w rest d₀).succ + 1)
    ∧ (∀ it rest d₀, it.local_filename ∉ d₀ → pyTruthy (net it.full_url) = true →
        w it.local_filename = true →
        (download_files net w (it :: rest) d₀).succ =
          (download_files net w rest (it.local_filename :: d₀)).succ + 1)
    ∧ (∀ it rest d₀, it.local_filename ∉ d₀ →
        (pyTruthy (net it.full_url) = false ∨ w it.local_filename = false) →
        (download_files net w (it :: rest) d₀).succ =
          (download_files net w rest d₀).succ)
    ∧ (∀ f, f ∈ (download_files net w items d).disk →
        f ∈ d ∨ ∃ it, it ∈ items ∧ f = toString it.tim ++ it.ext) := by
  have hcount := dlGo_succ_count net w items.length items 0 d 0 0
  have hlen := (dlGo_lengths net w items.length items 0 d 0 0).1
  refine ⟨?_, ?_, ?_, ?_, ?_, ?_, ?_⟩
  · show (dlGo net w items.length items 0 d 0 0).succ ≤ items.length
    rw [hcount]
    calc 0 + (dlGo net w items.length items 0 d 0 0).outcomes.count true
        ≤ (dlGo net w items.length items 0 d 0 0).outcomes.length := by
          simpa using List.count_le_length _ _
      _ = items.length := hlen
  · simpa [download_files] using hcount
  · exact hlen
  · intro it rest d₀ hmem
    show (dlGo net w (it :: rest).length (it :: rest) 0 d₀ 0 0).succ =
      (dlGo net w rest.length rest 0 d₀ 0 0).succ + 1
    simp only [dlGo, if_pos hmem, Nat.zero_add]
    have hp := dlGo_param net w rest rest.length ((it :: rest).length) 0 1 0 1 0 0 d₀
    have := hp.2.2.1
    omega
  · intro it rest d₀ hmem htr hw
    show (dlGo net w (it :: rest).length (it :: rest) 0 d₀ 0 0).succ =
      (dlGo net w rest.length rest 0 (it.local_filename :: d₀) 0 0).succ + 1
    simp only [dlGo, if_neg hmem, if_pos htr, if_pos hw, Nat.zero_add]
    have hp := dlGo_param net w rest rest.length ((it :: rest).length) 0 1 0 1 0 1
      (it.local_filename :: d₀)
    have := hp.2.2.1
    omega
  · intro it rest d₀ hmem hfail
    show (dlGo net w (it :: rest).length (it :: rest) 0 d₀ 0 0).succ =
      (dlGo net w rest.length rest 0 d₀ 0 0).succ
    have hp := dlGo_param net w rest rest.length ((it :: rest).length) 0 1 0 0 0 1 d₀
    have hq := hp.2.2.1
    rcases hfail with hf | hf
    · simp only [dlGo, if_neg hmem, Nat.zero_add,
        if_neg (by simp [hf] : ¬pyTruthy (net it.full_url) = true)]
      omega
    · by_cases htr : pyTruthy (net it.full_url) = true
      · simp only [dlGo, if_neg hmem, if_pos htr, Nat.zero_add,
          if_neg (by simp [hf] : ¬w it.local_filename = true)]
        omega
      · simp only [dlGo, if_neg hmem, if_neg htr, Nat.zero_add]
        omega
  · intro f hf
    rcases dlGo_disk_new net w items.length items 0 d 0 0 f hf with h | ⟨it, hm, he⟩
    · exact Or.inl h
    · exact Or.inr ⟨it, hm, by rw [he]; rfl⟩

/-- C4 witness: an already-present file is counted as a success on top of
the run over the remaining (empty) selection. -/
theorem c4_download_accounting_witness :
    (download_files netNone wAll [item111] ["111.jpg"]).succ =
      (download_files netNone wAll ([] : List MediaItem) ["111.jpg"]).succ + 1 := by
  exact (c4_download_accounting netNone wAll [item111] ["111.jpg"]).2.2.2.1
    item111 [] ["111.jpg"] (by decide)

/-- C7, counterexample: with one item whose fetch fails, the emitted
progress value is `100` while the emitted status pair is `(0, 1)`: the
progress fraction is computed from the number of items processed, not from
`succeededSoFar`, whose fraction would be `0`. -/
theorem c7_counterexample :
    (download_files netNone wAll [item111] []).pcts = [100]
    ∧ (download_files netNone wAll [item111] []).pairs = [(0, 1)]
    ∧ ¬ (100 : ℚ) = (0 : ℚ) / (1 : ℚ) * 100 := by
  refine ⟨?_, ?_, by norm_num⟩
  · show (dlGo netNone wAll 1 [item111] 0 [] 0 0).pcts = [100]
    rw [dlGo_pcts_formula]
    simp only [List.length_cons, List.length_nil, List.range_succ, List.range_zero,
      List.nil_append, List.map_cons, List.map_nil]
    norm_num
  · show (dlGo netNone wAll 1 [item111] 0 [] 0 0).pairs = [(0, 1)]
    simp [dlGo, netNone, pyTruthy, item111, MediaItem.local_filename]

/-- C7, amended: after each item `_download_files` emits the percentage
`((items processed) / total) * 100` — not the succeeded fraction — together
with the status pair `(succeededSoFar, total)`; the percentage sequence is
non-decreasing with final value `100`, and the status pairs carry a
non-decreasing success count with `total` as second component. -/
theorem c7_download_progress (net : String → Option Bytes) (w : String → Bool)
    (items : List MediaItem) (d : List String) (h : items ≠ []) :
    (download_files net w items d).pcts =
      (List.range items.length).map
        (fun j : Nat => ((j : ℚ) + 1) / (items.length : ℚ) * 100)
    ∧ (download_files net w items d).pcts.Chain' (fun a b => a ≤ b)
    ∧ (download_files net w items d).pcts.getLast? = some 100
    ∧ (download_files net w items d).pairs.length = items.length
    ∧ ((download_files net w items d).pairs.map Prod.fst).Chain' (fun a b => a ≤ b)
    ∧ (∀ p, p ∈ (download_files net w items d).pairs → p.2 = items.length) := by
  have hlen : 0 < items.length := List.length_pos.2 h
  have hL : (0 : ℚ) < (items.length : ℚ) := by exact_mod_cast hlen
  have hformula : (download_files net w items d).pcts =
      (List.range items.length).map
        (fun j : Nat => ((j : ℚ) + 1) / (items.length : ℚ) * 100) := by
    rw [show (download_files net w items d).pcts =
        (dlGo net w items.length items 0 d 0 0).pcts from rfl]
    rw [dlGo_pcts_formula]
    apply List.map_congr_left
    intro j hj
    norm_num
  have hstep : ∀ k : Nat,
      ((k : ℚ) + 1) / (items.length : ℚ) * 100 ≤
        (((k + 1 : Nat) : ℚ) + 1) / (items.length : ℚ) * 100 := by
    intro k
    apply mul_le_mul_of_nonneg_right _ (by norm_num : (0 : ℚ) ≤ 100)
    rw [div_le_div_iff_of_pos_right hL]
    push_cast
    linarith
  have hspec := dlGo_pairs_spec net w items.length items 0 d 0 0
  refine ⟨hformula, ?_, ?_, ?_, ?_, ?_⟩
  · rw [hformula]
    exact mapRange_chain_of_step _ hstep items.length
  · rw [hformula, mapRange_getLast? _ items.length hlen]
    have hcast : ((items.length - 1 : Nat) : ℚ) + 1 = (items.length : ℚ) := by
      have : (1 : Nat) ≤ items.length := hlen
      push_cast [Nat.cast_sub this]
      ring
    rw [hcast, div_self (ne_of_gt hL), one_mul]
  · exact (dlGo_lengths net w items.length items 0 d 0 0).2.2
  · rw [List.chain'_map]
    exact hspec.1
  · intro p hp
    exact (hspec.2 p hp).2

/-- C7 witness: a single failing item still ends at 100 % with the pair
count equal to the item count. -/
theorem c7_download_progress_witness :
    (download_files netNone wAll [item111] []).pcts.getLast? = some 100
    ∧ (download_files netNone wAll [item111] []).pairs.length = 1 := by
  have h := c7_download_progress netNone wAll [item111] [] (by simp)
  exact ⟨h.2.2.1, h.2.2.2.1⟩

/-- C8: the destination directory is created by `start_download` before any
item is processed — on `mkdir` failure the run aborts with the surfaced
error and zero network fetches, while on success the whole selection is
scheduled; within `_download_files` every item is processed (one outcome
per item), and a per-item write failure is recorded as a failed outcome
that leaves the disk, the success count and the processing of the
remaining items untouched. -/
theorem c8_dir_and_write_failures (net : String → Option Bytes) (w : String → Bool)
    (items : List MediaItem) (d : List String) :
    start_download false net w items d = StartOutcome.dirError
    ∧ startCalls (start_download false net w items d) = 0
    ∧ start_download true net w items d = StartOutcome.started (download_files net w items d)
    ∧ (download_files net w items d).outcomes.length = items.length
    ∧ (∀ it rest d₀, it.local_filename ∉ d₀ → pyTruthy (net it.full_url) = true →
        w it.local_filename = false →
        (download_files net w (it :: rest) d₀).outcomes =
          false :: (download_files net w rest d₀).outcomes
        ∧ (download_files net w (it :: rest) d₀).disk =
            (download_files net w rest d₀).disk
        ∧ (download_files net w (it :: rest) d₀).succ =
            (download_files net w rest d₀).succ) := by
  refine ⟨rfl, rfl, rfl, (dlGo_lengths net w items.length items 0 d 0 0).1, ?_⟩
  intro it rest d₀ hmem htr hw
  have hp := dlGo_param net w rest rest.length ((it :: rest).length) 0 1 0 0 0 1 d₀
  refine ⟨?_, ?_, ?_⟩
  · show (dlGo net w (it :: rest).length (it :: rest) 0 d₀ 0 0).outcomes =
      false :: (dlGo net w rest.length rest 0 d₀ 0 0).outcomes
    simp only [dlGo, if_neg hmem, if_pos htr, Nat.zero_add,
      if_neg (by simp [hw] : ¬w it.local_filename = true)]
    rw [hp.2.1]
  · show (dlGo net w (it :: rest).length (it :: rest) 0 d₀ 0 0).disk =
      (dlGo net w rest.length rest 0 d₀ 0 0).disk
    simp only [dlGo, if_neg hmem, if_pos htr, Nat.zero_add,
      if_neg (by simp [hw] : ¬w it.local_filename = true)]
    exact hp.1
  · show (dlGo net w (it :: rest).length (it :: rest) 0 d₀ 0 0).succ =
      (dlGo net w rest.length rest 0 d₀ 0 0).succ
    simp only [dlGo, if_neg hmem, if_pos htr, Nat.zero_add,
      if_neg (by simp [hw] : ¬w it.local_filename = true)]
    have := hp.2.2.1
    omega

/-- C8 witness: a failing write on a successfully fetched item yields a
failed outcome and leaves the disk as the run over the remaining (empty)
selection. -/
theorem c8_dir_and_write_failures_witness :
    (download_files netGood wNone [item111] []).outcomes =
      false :: (download_files netGood wNone ([] : List MediaItem) []).outcomes
    ∧ start_download false netGood wNone [item111] [] = StartOutcome.dirError := by
  have h := c8_dir_and_write_failures netGood wNone [item111] []
  exact ⟨(h.2.2.2.2 item111 [] [] (by decide) (by decide) rfl).1, h.1⟩

end ChanScraper
